import Mathlib

/-!
Verification of the acquisition-pipeline main process (Electron app).

The development shallowly embeds the relevant parts of the source file:
profile load/save, the torrent-download IPC handler, the extraction
supervisor with its progress parser, the recursive executable locator, and
the launch/playtime handler.  External effects (filesystem reads, JSON
parsing, the transfer engine, subprocesses, timestamps) are modelled as
explicit inputs; the functions below mirror the control flow of the source
line by line.
-/

/-! ## Executable locator (`findExecutable`, source lines 358-384)

A directory tree is modelled as a list of entries in directory-listing
order.  `unreadableDir` stands for a directory whose listing throws: the
source catches the error of `fs.readdirSync` and returns `null` for that
subtree. -/

inductive FsEntry where
  | file (name : String)
  | dir (name : String) (children : List FsEntry)
  | unreadableDir (name : String)
deriving Repr

/-- Phase one of the locator: scan the entries of one directory for a file
whose name matches the target case-insensitively (source lines 363-369). -/
def findFileHere (target : String) : List FsEntry → Option String
  | [] => none
  | .file n :: rest =>
      if n.toLower = target.toLower then some n else findFileHere target rest
  | .dir _ _ :: rest => findFileHere target rest
  | .unreadableDir _ :: rest => findFileHere target rest

/-- Phase two of the locator: recurse into each subdirectory in listing
order, running the same two-phase search inside it (source lines 372-378).
Recursing into an unreadable directory yields `null` in the source (its
own `catch` branch), so it contributes nothing here. -/
def searchSubdirs (target : String) : List FsEntry → Option (List String)
  | [] => none
  | .file _ :: rest => searchSubdirs target rest
  | .unreadableDir _ :: rest => searchSubdirs target rest
  | .dir n cs :: rest =>
      match (match findFileHere target cs with
             | some f => some [f]
             | none => searchSubdirs target cs) with
      | some p => some (n :: p)
      | none => searchSubdirs target rest
termination_by es => sizeOf es

/-- The locator `findExecutable(directory, targetExe)` of the source,
returning the path of the found file as its list of name components
relative to the searched root. -/
def findExecutable (target : String) (es : List FsEntry) : Option (List String) :=
  match findFileHere target es with
  | some f => some [f]
  | none => searchSubdirs target es

/-- Specification-side harness: all paths (in depth-first listing order) of
files in the tree whose name matches the target case-insensitively. -/
def matchPaths (target : String) : List FsEntry → List (List String)
  | [] => []
  | .file n :: rest =>
      (if n.toLower = target.toLower then [[n]] else []) ++ matchPaths target rest
  | .dir n cs :: rest =>
      (matchPaths target cs).map (n :: ·) ++ matchPaths target rest
  | .unreadableDir _ :: rest => matchPaths target rest
termination_by es => sizeOf es

theorem searchSubdirs_cons_dir (target n : String) (cs rest : List FsEntry) :
    searchSubdirs target (.dir n cs :: rest) =
      match findExecutable target cs with
      | some p => some (n :: p)
      | none => searchSubdirs target rest := by
  rw [searchSubdirs, findExecutable]

example : findExecutable "Terraria.exe"
    [.dir "A" [.dir "A1" [.file "Terraria.exe"]], .dir "B" [.file "Terraria.exe"]] =
    some ["A", "A1", "Terraria.exe"] := by
  simp [findExecutable, searchSubdirs, findFileHere]

theorem matchPaths_ne_nil (target : String) (es : List FsEntry) :
    ∀ q ∈ matchPaths target es, q ≠ [] := by
  induction es using matchPaths.induct target with
  | case1 => simp [matchPaths]
  | case2 n rest ih =>
      intro q hq
      rw [matchPaths] at hq
      rcases List.mem_append.mp hq with h | h
      · split at h <;> simp_all
      · exact ih q h
  | case3 n cs rest ihcs ihrest =>
      intro q hq
      rw [matchPaths] at hq
      rcases List.mem_append.mp hq with h | h
      · rcases List.mem_map.mp h with ⟨q', _, rfl⟩
        simp
      · exact ihrest q h
  | case4 n rest ih =>
      intro q hq
      rw [matchPaths] at hq
      exact ih q hq

theorem findFileHere_mem (target : String) (es : List FsEntry) :
    ∀ f, findFileHere target es = some f → [f] ∈ matchPaths target es := by
  induction es with
  | nil => simp [findFileHere]
  | cons e rest ih =>
      cases e with
      | file n =>
          intro f h
          rw [findFileHere] at h
          rw [matchPaths]
          split at h
          · cases h; simp_all
          · exact List.mem_append.mpr (Or.inr (ih f h))
      | dir n cs =>
          intro f h
          rw [findFileHere] at h
          rw [matchPaths]
          exact List.mem_append.mpr (Or.inr (ih f h))
      | unreadableDir n =>
          intro f h
          rw [findFileHere] at h
          rw [matchPaths]
          exact ih f h

theorem searchSubdirs_mem (target : String) (es : List FsEntry) :
    ∀ p, searchSubdirs target es = some p → p ∈ matchPaths target es := by
  induction es using searchSubdirs.induct target with
  | case1 => simp [searchSubdirs]
  | case2 n rest ih =>
      intro p h
      rw [searchSubdirs] at h
      rw [matchPaths]
      exact List.mem_append.mpr (Or.inr (ih p h))
  | case3 n rest ih =>
      intro p h
      rw [searchSubdirs] at h
      rw [matchPaths]
      exact ih p h
  | case4 n cs rest q hq ihcs =>
      intro p h
      rw [searchSubdirs, hq] at h
      cases h
      rw [matchPaths]
      refine List.mem_append.mpr (Or.inl ?_)
      refine List.mem_map.mpr ⟨q, ?_, rfl⟩
      rcases hff : findFileHere target cs with _ | f
      · rw [hff] at hq
        exact ihcs q hq
      · rw [hff] at hq
        cases hq
        exact findFileHere_mem target cs f hff
  | case5 n cs rest hq ihcs ihrest =>
      intro p h
      rw [searchSubdirs, hq] at h
      rw [matchPaths]
      exact List.mem_append.mpr (Or.inr (ihrest p h))

theorem locator_none_iff (target : String) (es : List FsEntry) :
    (findFileHere target es = none ∧ searchSubdirs target es = none) ↔
      matchPaths target es = [] := by
  induction es using searchSubdirs.induct target with
  | case1 => simp [findFileHere, searchSubdirs, matchPaths]
  | case2 n rest ih =>
      rw [findFileHere, searchSubdirs, matchPaths]
      split
      · simp
      · simpa using ih
  | case3 n rest ih =>
      rw [findFileHere, searchSubdirs, matchPaths]
      exact ih
  | case4 n cs rest q hq ihcs =>
      rw [findFileHere, searchSubdirs, hq, matchPaths]
      have hne : matchPaths target cs ≠ [] := by
        rcases hff : findFileHere target cs with _ | f
        · rw [hff] at hq
          exact List.ne_nil_of_mem (searchSubdirs_mem target cs q hq)
        · rw [hff] at hq
          exact List.ne_nil_of_mem (findFileHere_mem target cs f hff)
      constructor
      · intro h
        exact absurd h.2 (by simp)
      · intro h
        rcases List.append_eq_nil.mp h with ⟨h1, _⟩
        exact absurd (List.map_eq_nil_iff.mp h1) hne
  | case5 n cs rest hq ihcs ihrest =>
      have hffcs : findFileHere target cs = none := by
        rcases hff : findFileHere target cs with _ | f
        · rfl
        · rw [hff] at hq
          exact absurd hq (by simp)
      have hsscs : searchSubdirs target cs = none := by
        rw [hffcs] at hq
        exact hq
      have hcs : matchPaths target cs = [] := ihcs.mp ⟨hffcs, hsscs⟩
      rw [findFileHere, searchSubdirs, hq, matchPaths, hcs]
      simpa using ihrest

theorem singleton_match_findFileHere (target : String) (es : List FsEntry) :
    (∃ q ∈ matchPaths target es, q.length = 1) → findFileHere target es ≠ none := by
  induction es with
  | nil => simp [matchPaths]
  | cons e rest ih =>
      cases e with
      | file n =>
          rintro ⟨q, hq, hlen⟩
          rw [matchPaths] at hq
          rw [findFileHere]
          split
          · simp
          · rename_i hn
            rcases List.mem_append.mp hq with h | h
            · rw [if_neg hn] at h
              simp at h
            · exact ih ⟨q, h, hlen⟩
      | dir n cs =>
          rintro ⟨q, hq, hlen⟩
          rw [matchPaths] at hq
          rw [findFileHere]
          rcases List.mem_append.mp hq with h | h
          · rcases List.mem_map.mp h with ⟨q', hq', rfl⟩
            exact absurd (List.length_eq_zero.mp (by simpa using hlen))
              (matchPaths_ne_nil target cs q' hq')
          · exact ih ⟨q, h, hlen⟩
      | unreadableDir n =>
          rintro ⟨q, hq, hlen⟩
          rw [matchPaths] at hq
          rw [findFileHere]
          exact ih ⟨q, hq, hlen⟩

/-- The directory tree on which the shallowest-match claim fails: the
subdirectory listed first contains the target two levels down, while the
subdirectory listed second contains it directly. -/
def c1Tree : List FsEntry :=
  [.dir "A" [.dir "A1" [.file "Terraria.exe"]], .dir "B" [.file "Terraria.exe"]]

/-- Claim C1 counterexample: the locator is not shallowest-first.  On
`c1Tree` it returns the depth-2 match inside the earlier-listed
subdirectory `A` even though a depth-1 match exists inside the
later-listed subdirectory `B`, so the claim that a shallower match is
always preferred over a deeper one is false. -/
theorem find_shallowest_counterexample :
    ¬ (∀ (target : String) (es : List FsEntry) (p q : List String),
        findExecutable target es = some p → q ∈ matchPaths target es →
        p.length ≤ q.length) := by
  intro hclaim
  have h1 : findExecutable "Terraria.exe" c1Tree = some ["A", "A1", "Terraria.exe"] := by
    simp [c1Tree, findExecutable, searchSubdirs, findFileHere]
  have h2 : ["B", "Terraria.exe"] ∈ matchPaths "Terraria.exe" c1Tree := by
    simp [c1Tree, matchPaths]
  have := hclaim _ _ _ _ h1 h2
  simp at this

/-- Claim C1 (amended): the locator returns a path to a case-insensitive
occurrence of the target whenever one exists in the tree, and `none`
exactly when none exists; a match directly in the root directory is always
preferred over any deeper match (the returned path then has length one).
However the search is depth-first across sibling subdirectories in listing
order, so a deeper match in an earlier-listed subtree is returned in
preference to a shallower match in a later-listed one. -/
theorem findExecutable_sound_complete_rootFirst (target : String) (es : List FsEntry) :
    (∀ p, findExecutable target es = some p → p ∈ matchPaths target es) ∧
    (findExecutable target es = none ↔ matchPaths target es = []) ∧
    ((∃ q ∈ matchPaths target es, q.length = 1) →
      ∃ f, findExecutable target es = some [f]) := by
  refine ⟨?_, ?_, ?_⟩
  · intro p h
    rw [findExecutable] at h
    rcases hff : findFileHere target es with _ | f
    · rw [hff] at h
      exact searchSubdirs_mem target es p h
    · rw [hff] at h
      cases h
      exact findFileHere_mem target es f hff
  · constructor
    · intro h
      rw [findExecutable] at h
      rcases hff : findFileHere target es with _ | f
      · rw [hff] at h
        exact (locator_none_iff target es).mp ⟨hff, h⟩
      · rw [hff] at h
        exact absurd h (by simp)
    · intro h
      have hmp := (locator_none_iff target es).mpr h
      rw [findExecutable, hmp.1]
      exact hmp.2
  · intro hex
    rcases hff : findFileHere target es with _ | f
    · exact absurd hff (singleton_match_findFileHere target es hex)
    · exact ⟨f, by rw [findExecutable, hff]⟩

/-- Witness for the amended claim C1 at a concrete tree with a root-level
match. -/
theorem findExecutable_sound_complete_rootFirst_witness :
    ∃ f, findExecutable "Terraria.exe"
      [FsEntry.file "Terraria.exe", FsEntry.dir "A" [FsEntry.file "Terraria.exe"]] =
      some [f] :=
  (findExecutable_sound_complete_rootFirst "Terraria.exe" _).2.2
    ⟨["Terraria.exe"], by simp [matchPaths], rfl⟩

/-! ## Extraction progress parsing (source lines 291-307)

The stdout handler of the decoder subprocess scans each chunk with the
regex `(\d{1,3})%` (first match in the chunk, greedy with backtracking),
parses the captured digits, and re-emits a `decompression-progress` event
whenever the parsed value is `>=` the running `lastPercentage` (initially
0).  The destroyed-sender guard only suppresses the event delivery; the
running value is updated regardless. -/

/-- Try to match `(\d{1,3})%` at the head of the character list with
exactly `k` digits: the first `k` characters must be digits and the next
character the percent sign.  Returns the value of the captured digits
(`parseInt(match[1], 10)`). -/
def percentAtLen (cs : List Char) (k : Nat) : Option Nat :=
  let pre := cs.take k
  if pre.length = k && pre.all Char.isDigit && cs[k]? == some '%' then
    some (pre.foldl (fun a c => a * 10 + (c.toNat - '0'.toNat)) 0)
  else none

/-- Greedy match of `(\d{1,3})%` at the head of the list: three digits are
tried first, then two, then one (JS regex backtracking). -/
def matchPercentAt (cs : List Char) : Option Nat :=
  (percentAtLen cs 3).orElse fun _ =>
    (percentAtLen cs 2).orElse fun _ => percentAtLen cs 1

/-- Leftmost match: scan start positions left to right. -/
def scanPercent : List Char → Option Nat
  | [] => none
  | c :: rest =>
      match matchPercentAt (c :: rest) with
      | some p => some p
      | none => scanPercent rest

/-- `output.match(/(\d{1,3})%/)` followed by `parseInt(match[1], 10)`:
the value of the first percentage token in a stdout chunk, if any. -/
def parsePercent (s : String) : Option Nat := scanPercent s.data

/-- One stdout data chunk, together with the value of
`event.sender.isDestroyed()` observed when it is handled. -/
structure Chunk where
  data : String
  destroyed : Bool

/-- One round of the stdout handler: given the current `lastPercentage`,
returns the new `lastPercentage` and the progress percentages emitted
(at most one).  Mirrors source lines 293-307. -/
def extractionStep (last : Nat) (c : Chunk) : Nat × List Nat :=
  match parsePercent c.data with
  | none => (last, [])
  | some p =>
      if last ≤ p then (p, if c.destroyed then [] else [p])
      else (last, [])

/-- Folding the stdout handler over a whole sequence of chunks, collecting
every emitted progress percentage in order. -/
def extractionRun (last : Nat) : List Chunk → List Nat
  | [] => []
  | c :: rest =>
      (extractionStep last c).2 ++ extractionRun (extractionStep last c).1 rest

/-- The percentages carried by the `decompression-progress` events of one
extraction (the session starts with `lastPercentage = 0`). -/
def extractionEmitted (cs : List Chunk) : List Nat := extractionRun 0 cs

theorem extractionRun_bounds (cs : List Chunk) : ∀ last : Nat,
    (∀ x ∈ extractionRun last cs, last ≤ x) ∧
      List.Chain' (· ≤ ·) (extractionRun last cs) := by
  induction cs with
  | nil => simp [extractionRun]
  | cons c rest ih =>
      intro last
      rw [extractionRun]
      rcases hp : parsePercent c.data with _ | p
      · simpa [extractionStep, hp] using ih last
      · by_cases hle : last ≤ p
        · cases hd : c.destroyed
          · have hstep : extractionStep last c = (p, [p]) := by
              simp [extractionStep, hp, hle, hd]
            rw [hstep]
            simp only [List.singleton_append]
            refine ⟨?_, ?_⟩
            · intro x hx
              rcases List.mem_cons.mp hx with rfl | hx
              · exact hle
              · exact le_trans hle ((ih p).1 x hx)
            · rw [List.chain'_cons']
              exact ⟨fun b hb => (ih p).1 b (List.mem_of_mem_head? hb), (ih p).2⟩
          · have hstep : extractionStep last c = (p, []) := by
              simp [extractionStep, hp, hle, hd]
            rw [hstep]
            simp only [List.nil_append]
            exact ⟨fun x hx => le_trans hle ((ih p).1 x hx), (ih p).2⟩
        · have hstep : extractionStep last c = (last, []) := by
            simp [extractionStep, hp, hle]
          rw [hstep]
          simpa using ih last

/-- Claim C4: for any sequence of raw decoder stdout chunks fed to the
progress parser of one extraction run, the sequence of percentages carried
by the emitted `decompression-progress` events is non-decreasing. -/
theorem extraction_progress_monotone (cs : List Chunk) :
    List.Chain' (· ≤ ·) (extractionEmitted cs) :=
  (extractionRun_bounds cs 0).2

/-- Claim C3 counterexample: a chunk repeating the last emitted percentage
is re-emitted, because the source compares with `>=`.  Feeding the decoder
output "50%" twice emits 50 twice, so the emitted sequence is not strictly
increasing and duplicate values are not suppressed as the claim states. -/
theorem extraction_duplicate_reemitted_counterexample :
    extractionEmitted [⟨"50%", false⟩, ⟨"50%", false⟩] = [50, 50] ∧
    ¬ List.Chain' (· < ·) (extractionEmitted [⟨"50%", false⟩, ⟨"50%", false⟩]) := by
  have h : extractionEmitted [⟨"50%", false⟩, ⟨"50%", false⟩] = [50, 50] := by decide
  refine ⟨h, ?_⟩
  rw [h]
  simp [List.chain'_cons]

/-- Claim C3 (amended): during one extraction a `decompression-progress`
event is emitted exactly when the chunk parses to a percentage `p` with
`p >= lastPercentage` and the observer channel is alive; decreasing values
and unparsable chunks are suppressed, but a value equal to
`lastPercentage` (a duplicate) is re-emitted, and `lastPercentage` is
advanced even when the observer channel is gone. -/
theorem extractionStep_emission_characterization (last : Nat) (c : Chunk) :
    (∀ p, parsePercent c.data = some p → last ≤ p → c.destroyed = false →
        extractionStep last c = (p, [p])) ∧
    (∀ p, parsePercent c.data = some p → last ≤ p → c.destroyed = true →
        extractionStep last c = (p, [])) ∧
    (∀ p, parsePercent c.data = some p → p < last →
        extractionStep last c = (last, [])) ∧
    (parsePercent c.data = none → extractionStep last c = (last, [])) := by
  refine ⟨?_, ?_, ?_, ?_⟩
  · intro p hp hle hd
    simp [extractionStep, hp, hle, hd]
  · intro p hp hle hd
    simp [extractionStep, hp, hle, hd]
  · intro p hp hlt
    simp [extractionStep, hp, Nat.not_le.mpr hlt]
  · intro hp
    simp [extractionStep, hp]

/-- Witness for the amended claim C3: a duplicate chunk "50%" arriving
while `lastPercentage` is already 50 is emitted again. -/
theorem extractionStep_emission_characterization_witness :
    extractionStep 50 ⟨"50%", false⟩ = (50, [50]) :=
  (extractionStep_emission_characterization 50 ⟨"50%", false⟩).1 50
    (by decide) (by decide) rfl

/-! ## JSON values and JavaScript coercions

The persisted profile file and the in-memory profile data are dynamically
typed JavaScript values originating from `JSON.parse`.  `undefined` stands for
JavaScript `undefined`, the result of reading a missing property; it never
occurs inside a parsed JSON document.  Numbers are modelled as integers
(the profile stores integer playtimes and levels). -/

inductive JVal where
  | null
  | undefined
  | bool (b : Bool)
  | num (n : Int)
  | str (s : String)
  | arr (xs : List JVal)
  | obj (fields : List (String × JVal))
deriving Repr

/-- JavaScript truthiness of a value. -/
def jsTruthy : JVal → Bool
  | .null => false
  | .undefined => false
  | .bool b => b
  | .num n => n != 0
  | .str s => s != ""
  | .arr _ => true
  | .obj _ => true

/-- The JavaScript `typeof` operator. -/
def jsTypeof : JVal → String
  | .null => "object"
  | .undefined => "undefined"
  | .bool _ => "boolean"
  | .num _ => "number"
  | .str _ => "string"
  | .arr _ => "object"
  | .obj _ => "object"

/-- Read a key from a field list; a missing key reads as `undefined`. -/
def getF (fs : List (String × JVal)) (k : String) : JVal :=
  match fs.find? (fun p => p.1 == k) with
  | some p => p.2
  | none => .undefined

/-- Property read on a value.  Reads on non-objects yield `undefined`
(reads on `null`/`undefined` throw in JavaScript; every such read in the
source is guarded, and the unguarded ones are modelled explicitly at their
use sites). -/
def getField : JVal → String → JVal
  | .obj fs, k => getF fs k
  | _, _ => .undefined

/-- Property write on a field list: an existing key keeps its insertion
position and gets the new value, a fresh key is appended (JavaScript
object semantics). -/
def setF (fs : List (String × JVal)) (k : String) (v : JVal) : List (String × JVal) :=
  if fs.any (fun p => p.1 == k) then fs.map (fun p => if p.1 == k then (k, v) else p)
  else fs ++ [(k, v)]

/-- Property write on a value.  Writes on arrays attach a non-index
property which `JSON.stringify` does not serialize, so the JSON content is
unchanged; writes on primitives throw in strict mode and are modelled
explicitly at their use sites. -/
def setJ : JVal → String → JVal → JVal
  | .obj fs, k, v => .obj (setF fs k v)
  | w, _, _ => w

/-- JavaScript `a || b`. -/
def jsOr (a b : JVal) : JVal := if jsTruthy a then a else b

/-- The exceptions the profile-store code can raise internally. -/
inductive JsErr where
  | typeError
  | syntaxError
deriving Repr

/-! ## Profile store (source lines 22-98)

The module-level `extractionPaths` JavaScript `Map` is an insertion-ordered
association list; `Map.set` updates an existing key in place and appends a
fresh one, exactly like `setF`. -/

abbrev PathMap := List (String × JVal)

def mapGet (m : PathMap) (k : String) : Option JVal :=
  (m.find? (fun p => p.1 == k)).map (·.2)

def mapSet (m : PathMap) (k : String) (v : JVal) : PathMap := setF m k v

/-- The default user of `loadProfile` (source line 42). -/
def defaultUserJ : JVal :=
  .obj [("name", .str "User"), ("level", .num 0), ("picture", .null),
        ("expositors", .arr [])]

/-- The default profile of `loadProfile` (source line 42). -/
def defaultProfileJ : JVal :=
  .obj [("library", .arr []), ("user", defaultUserJ), ("extractionPaths", .obj [])]

/-- The observable state of the persisted profile file, abstracting the
filesystem read and `JSON.parse`: the file is absent, present but empty or
whitespace-only, present but not valid JSON (`JSON.parse` throws), or
parses to a JSON value. -/
inductive FileState where
  | absent
  | empty
  | unparsable (raw : String)
  | parsed (v : JVal)

def isArrB : JVal → Bool
  | .arr _ => true
  | _ => false

/-- The structure validation of `loadProfile` (source line 57):
`parsedData && typeof parsedData === 'object' &&
Array.isArray(parsedData.library) && typeof parsedData.user === 'object'`. -/
def validStructure (v : JVal) : Bool :=
  jsTruthy v && jsTypeof v == "object" && isArrB (getField v "library") &&
    jsTypeof (getField v "user") == "object"

/-- The `library` array of a profile value. -/
def libraryOf (v : JVal) : List JVal :=
  match getField v "library" with
  | .arr xs => xs
  | _ => []

/-- `game.playtime = game.playtime || 0` on one library record (source
line 62).  On an object the field is written (back-filling a missing or
falsy playtime with 0); on an array the write attaches a non-serialized
property, leaving the JSON value unchanged; on `null`/`undefined` the read
throws and on other primitives the strict-mode write throws. -/
def backfillRecord : JVal → Except JsErr JVal
  | .obj fs => .ok (.obj (setF fs "playtime" (jsOr (getF fs "playtime") (.num 0))))
  | .arr xs => .ok (.arr xs)
  | _ => .error .typeError

/-- `parsedData.library.forEach(...)` over the whole library. -/
def backfillLib : List JVal → Except JsErr (List JVal)
  | [] => .ok []
  | g :: rest =>
      match backfillRecord g with
      | .error e => .error e
      | .ok g' =>
          match backfillLib rest with
          | .error e => .error e
          | .ok rest' => .ok (g' :: rest')

/-- The user normalization of `loadProfile` (source lines 66-71).  The
validation only checked `typeof user === 'object'`, so `null` passes it
and makes the property reads throw; arrays and objects are normalized
field by field. -/
def normalizeUser (u : JVal) : Except JsErr JVal :=
  match u with
  | .null => .error .typeError
  | .undefined => .error .typeError
  | _ => .ok (.obj
      [("name", jsOr (getField u "name") (.str "User")),
       ("level", jsOr (getField u "level") (.num 0)),
       ("picture", jsOr (getField u "picture") .null),
       ("expositors",
         if isArrB (getField u "expositors") then getField u "expositors"
         else .arr [])])

/-- The own enumerable string keys of a value with their values, in
`for..in` order: an object's fields in insertion order, an array's
elements under their index strings, nothing for primitives. -/
def ownEntries : JVal → List (String × JVal)
  | .obj fs => fs
  | .arr xs => xs.enum.map (fun p => (toString p.1, p.2))
  | _ => []

/-- The body of `loadProfile` (source lines 41-98) up to its surrounding
`try/catch`: returns the profile value handed to the caller and the
updated `extractionPaths` map, or the exception the body raises. -/
def loadProfileBody (fs : FileState) (prev : PathMap) :
    Except JsErr (JVal × PathMap) :=
  match fs with
  | .absent => .ok (defaultProfileJ, prev)
  | .empty => .ok (defaultProfileJ, prev)
  | .unparsable _ => .error .syntaxError
  | .parsed v =>
      if validStructure v then
        match backfillLib (libraryOf v) with
        | .error e => .error e
        | .ok lib' =>
            match normalizeUser (getField v "user") with
            | .error e => .error e
            | .ok u' =>
                let v' := setJ (setJ v "library" (.arr lib')) "user" u'
                let ep := getField v "extractionPaths"
                let m' :=
                  if jsTruthy ep && jsTypeof ep == "object" then
                    (ownEntries ep).foldl (fun m kv => mapSet m kv.1 kv.2) prev
                  else prev
                .ok (v', m')
      else .ok (defaultProfileJ, prev)

/-- `loadProfile`: the body wrapped in its `try/catch`; any raised
exception is logged and the default profile returned, the map untouched.
The function never fails its caller. -/
def loadProfile (fs : FileState) (prev : PathMap) : JVal × PathMap :=
  match loadProfileBody fs prev with
  | .ok r => r
  | .error _ => (defaultProfileJ, prev)

/-- `saveProfile` (source lines 27-38): sets `profileData.extractionPaths`
to the map flattened to a plain object and serializes the result.  Returns
the JSON content a successful write persists; a write failure is logged
and swallowed, never raised. -/
def saveProfile (p : JVal) (m : PathMap) : JVal :=
  setJ p "extractionPaths" (.obj m)

theorem any_key_of_find?_some {fs : List (String × JVal)} {k : String}
    {p : String × JVal} (hf : fs.find? (fun p => p.1 == k) = some p) :
    fs.any (fun p => p.1 == k) = true := by
  have hpk := List.find?_some hf
  exact List.any_eq_true.mpr ⟨p, List.mem_of_find?_eq_some hf, hpk⟩

theorem find?_none_of_not_any {fs : List (String × JVal)} {k : String}
    (h : fs.any (fun p => p.1 == k) = false) :
    fs.find? (fun p => p.1 == k) = none := by
  rcases hf : fs.find? (fun p => p.1 == k) with _ | p
  · exact hf
  · rw [any_key_of_find?_some hf] at h
    cases h

theorem getF_eq_undef_of_not_any (fs : List (String × JVal)) (k : String)
    (h : fs.any (fun p => p.1 == k) = false) : getF fs k = .undefined := by
  rw [getF, find?_none_of_not_any h]

theorem find?_map_set_self (fs : List (String × JVal)) (k : String) (v : JVal)
    (h : fs.any (fun p => p.1 == k) = true) :
    (fs.map (fun p => if p.1 == k then (k, v) else p)).find?
      (fun p => p.1 == k) = some (k, v) := by
  induction fs with
  | nil => simp at h
  | cons p rest ih =>
      rw [List.map_cons]
      by_cases hp : p.1 = k
      · have hif : (if p.1 == k then (k, v) else p) = (k, v) := by
          simp [hp]
        rw [hif]
        exact List.find?_cons_of_pos _ (by simp)
      · have hif : (if p.1 == k then (k, v) else p) = p := by
          simp [hp]
        rw [hif, List.find?_cons_of_neg _ (by simp [hp])]
        apply ih
        rcases List.any_eq_true.mp h with ⟨q, hq, hqk⟩
        rcases List.mem_cons.mp hq with rfl | hq
        · exact absurd (by simpa using hqk) hp
        · exact List.any_eq_true.mpr ⟨q, hq, hqk⟩

theorem find?_map_set_other (fs : List (String × JVal)) (k k' : String) (v : JVal)
    (hkk : (k' == k) = false) :
    (fs.map (fun p => if p.1 == k then (k, v) else p)).find?
      (fun p => p.1 == k') = fs.find? (fun p => p.1 == k') := by
  have hne : ¬ k = k' := fun e => beq_eq_false_iff_ne.mp hkk e.symm
  induction fs with
  | nil => rfl
  | cons p rest ih =>
      rw [List.map_cons]
      by_cases hp : p.1 = k
      · have hif : (if p.1 == k then (k, v) else p) = (k, v) := by
          simp [hp]
        rw [hif, List.find?_cons_of_neg _ (by simp [hne]),
          List.find?_cons_of_neg _ (by simp [hp, hne]), ih]
      · have hif : (if p.1 == k then (k, v) else p) = p := by
          simp [hp]
        rw [hif]
        by_cases hq : p.1 = k'
        · rw [List.find?_cons_of_pos _ (by simp [hq]),
            List.find?_cons_of_pos _ (by simp [hq])]
        · rw [List.find?_cons_of_neg _ (by simp [hq]),
            List.find?_cons_of_neg _ (by simp [hq]), ih]

theorem getF_setF_self (fs : List (String × JVal)) (k : String) (v : JVal) :
    getF (setF fs k v) k = v := by
  rw [setF]
  split
  · rename_i h
    rw [getF, find?_map_set_self fs k v h]
  · rename_i h
    have hanyf : fs.any (fun p => p.1 == k) = false := by
      cases hb : fs.any (fun p => p.1 == k)
      · rfl
      · exact absurd hb h
    rw [getF, List.find?_append, find?_none_of_not_any hanyf]
    simp

theorem getF_setF_other (fs : List (String × JVal)) (k k' : String) (v : JVal)
    (hkk : (k' == k) = false) : getF (setF fs k v) k' = getF fs k' := by
  have hne : ¬ k = k' := fun e => beq_eq_false_iff_ne.mp hkk e.symm
  rw [setF]
  split
  · rw [getF, find?_map_set_other fs k k' v hkk, getF]
  · rw [getF, getF, List.find?_append]
    have hsingle : List.find? (fun p => p.1 == k') [(k, v)] = none := by
      simp [List.find?_cons, hne]
    rw [hsingle, Option.or_none]

/-- A record of the returned library carries a `playtime` key (non-object
records carry it as a non-serialized property, outside the model). -/
def recordFilled : JVal → Bool
  | .obj fs => (fs.find? (fun p => p.1 == "playtime")).isSome
  | _ => true

/-- The user value carries all four normalized subfields. -/
def userFilled : JVal → Bool
  | .obj fs =>
      (fs.find? (fun p => p.1 == "name")).isSome &&
      (fs.find? (fun p => p.1 == "level")).isSome &&
      (fs.find? (fun p => p.1 == "picture")).isSome &&
      (fs.find? (fun p => p.1 == "expositors")).isSome
  | _ => false

theorem setF_find_isSome (fs : List (String × JVal)) (k : String) (v : JVal) :
    ((setF fs k v).find? (fun p => p.1 == k)).isSome = true := by
  rw [List.find?_isSome]
  rw [setF]
  split
  · rename_i h
    rcases List.any_eq_true.mp h with ⟨q, hq, hqk⟩
    exact ⟨(k, v), List.mem_map.mpr ⟨q, hq, by simp [hqk]⟩, by simp⟩
  · exact ⟨(k, v), List.mem_append.mpr (Or.inr (by simp)), by simp⟩

theorem backfillRecord_filled (g g' : JVal) (h : backfillRecord g = .ok g') :
    recordFilled g' = true := by
  cases g with
  | obj fs =>
      rw [backfillRecord] at h
      cases h
      exact setF_find_isSome fs "playtime" _
  | arr xs =>
      rw [backfillRecord] at h
      cases h
      rfl
  | null => cases h
  | undefined => cases h
  | bool b => cases h
  | num n => cases h
  | str s => cases h

theorem backfillLib_filled (gs gs' : List JVal) (h : backfillLib gs = .ok gs') :
    ∀ g' ∈ gs', recordFilled g' = true := by
  induction gs generalizing gs' with
  | nil =>
      rw [backfillLib] at h
      cases h
      simp
  | cons g rest ih =>
      rw [backfillLib] at h
      rcases hg : backfillRecord g with e | g1
      · rw [hg] at h; cases h
      · rw [hg] at h
        rcases hr : backfillLib rest with e | rest'
        · rw [hr] at h; cases h
        · rw [hr] at h
          cases h
          intro x hx
          rcases List.mem_cons.mp hx with rfl | hx
          · exact backfillRecord_filled g x hg
          · exact ih rest' hr x hx

theorem normalizeUser_filled (u u' : JVal) (h : normalizeUser u = .ok u') :
    userFilled u' = true := by
  cases u with
  | null => simp [normalizeUser] at h
  | undefined => simp [normalizeUser] at h
  | bool b =>
      simp only [normalizeUser, Except.ok.injEq] at h
      subst h
      rfl
  | num n =>
      simp only [normalizeUser, Except.ok.injEq] at h
      subst h
      rfl
  | str s =>
      simp only [normalizeUser, Except.ok.injEq] at h
      subst h
      rfl
  | arr xs =>
      simp only [normalizeUser, Except.ok.injEq] at h
      subst h
      rfl
  | obj fsu =>
      simp only [normalizeUser, Except.ok.injEq] at h
      subst h
      rfl

theorem validStructure_obj (v : JVal) (h : validStructure v = true) :
    ∃ fsv, v = .obj fsv := by
  cases v <;> simp_all [validStructure, getField, isArrB]

/-- Claim C7: `loadProfile` never fails the caller.  For every persisted
file state that is absent, empty, unparsable, or structurally invalid it
returns the default profile (empty library, default user) and leaves the
installed-path table untouched, without raising; whatever the file state,
every object record of the returned library carries a `playtime` field and
the returned user carries all four subfields; the back-fill writes 0 for a
missing playtime and keeps a numeric one, and the user normalization
substitutes the documented defaults for missing subfields. -/
theorem loadProfile_never_fails_defaults (fs : FileState) (prev : PathMap) :
    ((fs = .absent ∨ fs = .empty ∨ (∃ s, fs = .unparsable s) ∨
        (∃ v, fs = .parsed v ∧ validStructure v = false)) →
      loadProfile fs prev = (defaultProfileJ, prev)) ∧
    ((libraryOf (loadProfile fs prev).1).all recordFilled = true) ∧
    (userFilled (getField (loadProfile fs prev).1 "user") = true) ∧
    (∀ g gf, g = JVal.obj gf → ∀ g', backfillRecord g = .ok g' →
        (getF gf "playtime" = .undefined → getField g' "playtime" = .num 0) ∧
        (∀ n, getF gf "playtime" = .num n → getField g' "playtime" = .num n)) ∧
    (∀ u u', normalizeUser u = .ok u' →
        (getField u "name" = .undefined → getField u' "name" = .str "User") ∧
        (getField u "level" = .undefined → getField u' "level" = .num 0) ∧
        (getField u "picture" = .undefined → getField u' "picture" = .null) ∧
        (isArrB (getField u "expositors") = false →
          getField u' "expositors" = .arr [])) := by
  have hdefaultLib : (libraryOf defaultProfileJ).all recordFilled = true := by decide
  have hdefaultUser : userFilled (getField defaultProfileJ "user") = true := by decide
  refine ⟨?_, ?_, ?_, ?_, ?_⟩
  · rintro (rfl | rfl | ⟨s, rfl⟩ | ⟨v, rfl, hv⟩)
    · rfl
    · rfl
    · rfl
    · simp [loadProfile, loadProfileBody, hv]
  · cases fs with
    | absent => exact hdefaultLib
    | empty => exact hdefaultLib
    | unparsable s => exact hdefaultLib
    | parsed v =>
        rcases hv : validStructure v with _ | _
        · simpa [loadProfile, loadProfileBody, hv] using hdefaultLib
        · rcases hbl : backfillLib (libraryOf v) with e | lib'
          · simpa [loadProfile, loadProfileBody, hv, hbl] using hdefaultLib
          · rcases hnu : normalizeUser (getField v "user") with e | u'
            · simpa [loadProfile, loadProfileBody, hv, hbl, hnu] using hdefaultLib
            · rcases validStructure_obj v hv with ⟨fsv, rfl⟩
              have hres : (loadProfile (.parsed (.obj fsv)) prev).1 =
                  JVal.obj (setF (setF fsv "library" (.arr lib')) "user" u') := by
                simp [loadProfile, loadProfileBody, hv, hbl, hnu, setJ]
              rw [hres]
              have hlib : getF (setF (setF fsv "library" (.arr lib')) "user" u')
                  "library" = .arr lib' := by
                rw [getF_setF_other _ _ _ _ (by decide), getF_setF_self]
              show (match getField (JVal.obj (setF (setF fsv "library"
                  (.arr lib')) "user" u')) "library" with
                | JVal.arr xs => xs
                | _ => ([] : List JVal)).all recordFilled = true
              show (match getF (setF (setF fsv "library" (.arr lib')) "user" u')
                  "library" with
                | JVal.arr xs => xs
                | _ => ([] : List JVal)).all recordFilled = true
              rw [hlib]
              exact List.all_eq_true.mpr (backfillLib_filled _ _ hbl)
  · cases fs with
    | absent => exact hdefaultUser
    | empty => exact hdefaultUser
    | unparsable s => exact hdefaultUser
    | parsed v =>
        rcases hv : validStructure v with _ | _
        · simpa [loadProfile, loadProfileBody, hv] using hdefaultUser
        · rcases hbl : backfillLib (libraryOf v) with e | lib'
          · simpa [loadProfile, loadProfileBody, hv, hbl] using hdefaultUser
          · rcases hnu : normalizeUser (getField v "user") with e | u'
            · simpa [loadProfile, loadProfileBody, hv, hbl, hnu] using hdefaultUser
            · rcases validStructure_obj v hv with ⟨fsv, rfl⟩
              have hres : (loadProfile (.parsed (.obj fsv)) prev).1 =
                  JVal.obj (setF (setF fsv "library" (.arr lib')) "user" u') := by
                simp [loadProfile, loadProfileBody, hv, hbl, hnu, setJ]
              rw [hres]
              show userFilled (getF (setF (setF fsv "library" (.arr lib'))
                "user" u') "user") = true
              rw [getF_setF_self]
              exact normalizeUser_filled _ _ hnu
  · rintro g gf rfl g' h
    rw [backfillRecord] at h
    cases h
    constructor
    · intro hu
      show getF (setF gf "playtime" (jsOr (getF gf "playtime") (.num 0)))
        "playtime" = .num 0
      rw [getF_setF_self, hu]
      rfl
    · intro n hn
      show getF (setF gf "playtime" (jsOr (getF gf "playtime") (.num 0)))
        "playtime" = .num n
      rw [getF_setF_self, hn]
      by_cases h0 : n = 0
      · subst h0
        simp [jsOr, jsTruthy]
      · simp [jsOr, jsTruthy, h0]
  · intro u u' h
    cases u with
    | null => simp [normalizeUser] at h
    | undefined => simp [normalizeUser] at h
    | bool b =>
        cases h
        exact ⟨fun _ => rfl, fun _ => rfl, fun _ => rfl, fun _ => rfl⟩
    | num n =>
        cases h
        exact ⟨fun _ => rfl, fun _ => rfl, fun _ => rfl, fun _ => rfl⟩
    | str s =>
        cases h
        exact ⟨fun _ => rfl, fun _ => rfl, fun _ => rfl, fun _ => rfl⟩
    | arr xs =>
        cases h
        exact ⟨fun _ => rfl, fun _ => rfl, fun _ => rfl, fun _ => rfl⟩
    | obj fsu =>
        cases h
        refine ⟨?_, ?_, ?_, ?_⟩
        · intro hh
          show jsOr (getField (JVal.obj fsu) "name") (.str "User") = .str "User"
          rw [hh]
          rfl
        · intro hh
          show jsOr (getField (JVal.obj fsu) "level") (.num 0) = .num 0
          rw [hh]
          rfl
        · intro hh
          show jsOr (getField (JVal.obj fsu) "picture") JVal.null = .null
          rw [hh]
          rfl
        · intro hh
          show (if isArrB (getField (JVal.obj fsu) "expositors") = true then
              getField (JVal.obj fsu) "expositors" else .arr []) = .arr []
          simp [hh]

/-- Witness for claim C7: an absent profile file loads as the default
profile without touching the installed-path table. -/
theorem loadProfile_never_fails_defaults_witness :
    loadProfile FileState.absent [] = (defaultProfileJ, []) :=
  (loadProfile_never_fails_defaults FileState.absent []).1 (Or.inl rfl)

/-! ## Claim C10: the load-time merge never removes installed-path records -/

/-- The installed-path entries that a given file state contributes to the
merge of `loadProfile` (source lines 73-82): the own enumerable entries of
the parsed `extractionPaths` value when the merge guard accepts it,
nothing otherwise. -/
def fileEPEntries : FileState → List (String × JVal)
  | .parsed v =>
      if jsTruthy (getField v "extractionPaths") &&
          jsTypeof (getField v "extractionPaths") == "object" then
        ownEntries (getField v "extractionPaths")
      else []
  | _ => []

theorem mapGet_setF_other (m : PathMap) (k k' : String) (v : JVal)
    (hkk : (k' == k) = false) : mapGet (setF m k v) k' = mapGet m k' := by
  simp only [mapGet]
  rw [setF]
  split
  · rw [find?_map_set_other m k k' v hkk]
  · rw [List.find?_append]
    have hsingle : List.find? (fun p => p.1 == k') [(k, v)] = none := by
      have hne : ¬ k = k' := fun e => beq_eq_false_iff_ne.mp hkk e.symm
      rw [List.find?_cons_of_neg _ (by simp [hne])]
      rfl
    rw [hsingle, Option.or_none]

theorem mapGet_foldl_set_of_not_key (entries : List (String × JVal)) :
    ∀ (m : PathMap) (k : String),
    (∀ kv ∈ entries, (kv.1 == k) = false) →
    mapGet (entries.foldl (fun m kv => mapSet m kv.1 kv.2) m) k = mapGet m k := by
  induction entries with
  | nil => intro m k _; rfl
  | cons e rest ih =>
      intro m k h
      rw [List.foldl_cons]
      rw [ih _ k (fun kv hkv => h kv (List.mem_cons_of_mem _ hkv))]
      refine mapGet_setF_other m e.1 k e.2 ?_
      have he := h e (List.mem_cons_self _ _)
      simp only [beq_eq_false_iff_ne, ne_eq] at he ⊢
      exact fun x => he x.symm

theorem mem_of_mapGet_some {m : PathMap} {k : String} {w : JVal}
    (h : mapGet m k = some w) : (k, w) ∈ m := by
  simp only [mapGet] at h
  rcases hf : m.find? (fun p => p.1 == k) with _ | q
  · rw [hf] at h
    cases h
  · rw [hf] at h
    have hq := List.find?_some hf
    have hqm := List.mem_of_find?_eq_some hf
    have hqw : q.2 = w := by simpa using h
    have hk1 : q.1 = k := by simpa using hq
    have hqkw : q = (k, w) := Prod.ext hk1 hqw
    exact hqkw ▸ hqm

theorem loadProfile_fst_obj (fs : FileState) (prev : PathMap) :
    ∃ pf, (loadProfile fs prev).1 = .obj pf := by
  cases fs with
  | absent => exact ⟨_, rfl⟩
  | empty => exact ⟨_, rfl⟩
  | unparsable s => exact ⟨_, rfl⟩
  | parsed v =>
      rcases hv : validStructure v with _ | _
      · have hres : (loadProfile (.parsed v) prev).1 = defaultProfileJ := by
          simp [loadProfile, loadProfileBody, hv]
        exact ⟨_, hres⟩
      · rcases hbl : backfillLib (libraryOf v) with e | lib'
        · have hres : (loadProfile (.parsed v) prev).1 = defaultProfileJ := by
            simp [loadProfile, loadProfileBody, hv, hbl]
          exact ⟨_, hres⟩
        · rcases hnu : normalizeUser (getField v "user") with e | u'
          · have hres : (loadProfile (.parsed v) prev).1 = defaultProfileJ := by
              simp [loadProfile, loadProfileBody, hv, hbl, hnu]
            exact ⟨_, hres⟩
          · rcases validStructure_obj v hv with ⟨fsv, rfl⟩
            have hres : (loadProfile (.parsed (.obj fsv)) prev).1 =
                JVal.obj (setF (setF fsv "library" (.arr lib')) "user" u') := by
              simp [loadProfile, loadProfileBody, hv, hbl, hnu, setJ]
            exact ⟨_, hres⟩

/-- Claim C10: `loadProfile` merges the persisted installed-path entries
into the in-memory table without clearing it first.  Every entry whose key
does not occur among the file's entries survives the load unchanged, still
belongs to the table, and the next save writes the whole table as the
`extractionPaths` field, so a load never removes an installed-path
record. -/
theorem load_preserves_unrelated_paths (fs : FileState) (prev : PathMap)
    (k : String) (w : JVal) (hk : mapGet prev k = some w)
    (habs : ∀ kv ∈ fileEPEntries fs, (kv.1 == k) = false) :
    mapGet (loadProfile fs prev).2 k = some w ∧
    (k, w) ∈ (loadProfile fs prev).2 ∧
    getField (saveProfile (loadProfile fs prev).1 (loadProfile fs prev).2)
      "extractionPaths" = .obj (loadProfile fs prev).2 := by
  have hmap : mapGet (loadProfile fs prev).2 k = some w := by
    cases fs with
    | absent => exact hk
    | empty => exact hk
    | unparsable s => exact hk
    | parsed v =>
        rcases hv : validStructure v with _ | _
        · simpa [loadProfile, loadProfileBody, hv] using hk
        · rcases hbl : backfillLib (libraryOf v) with e | lib'
          · simpa [loadProfile, loadProfileBody, hv, hbl] using hk
          · rcases hnu : normalizeUser (getField v "user") with e | u'
            · simpa [loadProfile, loadProfileBody, hv, hbl, hnu] using hk
            · have hsnd : (loadProfile (.parsed v) prev).2 =
                  if jsTruthy (getField v "extractionPaths") &&
                      jsTypeof (getField v "extractionPaths") == "object" then
                    (ownEntries (getField v "extractionPaths")).foldl
                      (fun m kv => mapSet m kv.1 kv.2) prev
                  else prev := by
                simp [loadProfile, loadProfileBody, hv, hbl, hnu]
              rw [hsnd]
              split
              · rename_i hguard
                have hentries : fileEPEntries (.parsed v) =
                    ownEntries (getField v "extractionPaths") := by
                  simp [fileEPEntries, hguard]
                rw [hentries] at habs
                rw [mapGet_foldl_set_of_not_key _ prev k habs]
                exact hk
              · exact hk
  refine ⟨hmap, mem_of_mapGet_some hmap, ?_⟩
  rcases loadProfile_fst_obj fs prev with ⟨pf, hpf⟩
  rw [saveProfile, hpf]
  simp only [setJ, getField]
  exact getF_setF_self pf "extractionPaths" _

/-- Witness for claim C10: an entry "g1" present in the in-memory table
and absent from a parsed file with an empty installed-path object survives
the load and is written out by the next save. -/
theorem load_preserves_unrelated_paths_witness :
    mapGet (loadProfile (.parsed (.obj [("library", .arr []),
        ("user", .obj []), ("extractionPaths", .obj [])]))
      [("g1", .str "rec")]).2 "g1" = some (.str "rec") :=
  (load_preserves_unrelated_paths _ [("g1", .str "rec")] "g1" (.str "rec")
    rfl (by simp [fileEPEntries, ownEntries, getField, getF, List.find?])).1

/-! ## Launch and playtime tracking (`launch-game`, source lines 386-444)

The handler is modelled as a pure function of the installed-path table,
the persisted file state observed by its `loadProfile` call, the two
`Date.now()` readings, and the error value (if any) that `execFile`
reports for the spawned process. -/

structure JsResult where
  success : Bool
  message : String
deriving Repr, DecidableEq

inductive LEvent where
  | updatePlaytime (gameId : String)
deriving Repr, DecidableEq

structure LaunchOut where
  result : JsResult
  saved : Option JVal
  pathsAfter : PathMap
  events : List LEvent

/-- `Math.round(playtimeMs / 1000)` for the non-negative elapsed
milliseconds: round half up. -/
def roundSeconds (ms : Nat) : Nat := (ms + 500) / 1000

/-- `game.id === gameId` (strict equality against a string id). -/
def idMatches (g : JVal) (gameId : String) : Bool :=
  match getField g "id" with
  | .str s => s == gameId
  | _ => false

/-- The string a primitive renders to inside `Array.prototype.join`. -/
def jsPrimString : JVal → String
  | .null => ""
  | .undefined => ""
  | .bool b => cond b "true" "false"
  | .num n => toString n
  | .str s => s
  | .arr _ => ""
  | .obj _ => "[object Object]"

/-- `(playtime || 0) + playtimeSec` (source line 417).  The left operand
is the record's playtime defaulted through `||`, so it is either truthy or
the number 0; JavaScript `+` adds numbers and concatenates after string
coercion otherwise (array rendering is approximated to one join level,
reachable only from malformed profiles no theorem here touches). -/
def addPlaytime (p : JVal) (sec : Nat) : JVal :=
  match jsOr p (.num 0) with
  | .num m => .num (m + sec)
  | .str s => .str (s ++ toString sec)
  | .bool b => .num ((if b then 1 else 0) + sec)
  | .arr xs => .str (String.intercalate "," (xs.map jsPrimString) ++ toString sec)
  | .obj _ => .str ("[object Object]" ++ toString sec)
  | .null => .num sec
  | .undefined => .num sec

/-- `findIndex` on `game.id === gameId` followed by the in-place playtime
update of that one record (source lines 415-420): only the first matching
record is written, and a missing record leaves the library unchanged —
nothing is created. -/
def updateLib (sec : Nat) (gameId : String) : List JVal → List JVal
  | [] => []
  | g :: rest =>
      if idMatches g gameId then
        setJ g "playtime" (addPlaytime (getField g "playtime") sec) :: rest
      else g :: updateLib sec gameId rest

/-- The `launch-game` handler: the installed-path lookup and its guard,
then (in the `execFile` callback) the playtime bookkeeping —
`loadProfile`, the library update, `saveProfile` — performed before the
error check, and finally the result and the success-only
`update-playtime` broadcast (source lines 404-438). -/
def launchGame (paths : PathMap) (gameId : String) (fs : FileState)
    (startTime endTime : Nat) (procError : Option String) : LaunchOut :=
  match mapGet paths gameId with
  | none => ⟨⟨false, "Game executable not found"⟩, none, paths, []⟩
  | some gd =>
      if !(jsTruthy gd) || !(jsTruthy (getField gd "execTarget")) then
        ⟨⟨false, "Game executable not found"⟩, none, paths, []⟩
      else
        let sec := roundSeconds (endTime - startTime)
        let lp := loadProfile fs paths
        let lib' := updateLib sec gameId (libraryOf lp.1)
        let profile' := setJ lp.1 "library" (.arr lib')
        let saved := saveProfile profile' lp.2
        match procError with
        | some m => ⟨⟨false, "Launch failed: " ++ m⟩, some saved, lp.2, []⟩
        | none => ⟨⟨true, "Game launched successfully"⟩, some saved, lp.2,
            [.updatePlaytime gameId]⟩

theorem launchGame_eq (paths : PathMap) (gameId : String) (fs : FileState)
    (st en : Nat) (procError : Option String) (gd : JVal)
    (hgd : mapGet paths gameId = some gd) (htr : jsTruthy gd = true)
    (hex : jsTruthy (getField gd "execTarget") = true) :
    launchGame paths gameId fs st en procError =
      ⟨(match procError with
        | none => ⟨true, "Game launched successfully"⟩
        | some m => ⟨false, "Launch failed: " ++ m⟩),
       some (saveProfile (setJ (loadProfile fs paths).1 "library"
         (.arr (updateLib (roundSeconds (en - st)) gameId
           (libraryOf (loadProfile fs paths).1)))) (loadProfile fs paths).2),
       (loadProfile fs paths).2,
       (match procError with
        | none => [.updatePlaytime gameId]
        | some _ => [])⟩ := by
  rw [launchGame, hgd]
  simp only [htr, hex, Bool.not_true, Bool.or_self, Bool.false_eq_true,
    if_false, ite_false]
  cases procError <;> rfl

theorem libraryOf_save_setlib (pf : List (String × JVal)) (l : List JVal)
    (m : PathMap) :
    libraryOf (saveProfile (setJ (.obj pf) "library" (.arr l)) m) = l := by
  rw [saveProfile]
  simp only [setJ]
  rw [libraryOf, getField, getF_setF_other _ _ _ _ (by decide), getF_setF_self]

theorem updateLib_no_match (sec : Nat) (gameId : String) :
    ∀ L, (∀ g ∈ L, idMatches g gameId = false) → updateLib sec gameId L = L := by
  intro L h
  induction L with
  | nil => rfl
  | cons g rest ih =>
      rw [updateLib]
      simp [h g (List.mem_cons_self _ _),
        ih (fun g' hg' => h g' (List.mem_cons_of_mem _ hg'))]

theorem addPlaytime_num (n : Int) (sec : Nat) :
    addPlaytime (.num n) sec = .num (n + sec) := by
  by_cases h0 : n = 0
  · subst h0
    simp [addPlaytime, jsOr, jsTruthy]
  · simp [addPlaytime, jsOr, jsTruthy, h0]

theorem updateLib_first_match (sec : Nat) (gameId : String) :
    ∀ pre (g : JVal) post, (∀ g' ∈ pre, idMatches g' gameId = false) →
      idMatches g gameId = true →
      updateLib sec gameId (pre ++ g :: post) =
        pre ++ setJ g "playtime" (addPlaytime (getField g "playtime") sec) :: post := by
  intro pre
  induction pre with
  | nil =>
      intro g post _ hg
      simp [updateLib, hg]
  | cons q pre ih =>
      intro g post hpre hg
      rw [List.cons_append, updateLib]
      simp [hpre q (List.mem_cons_self _ _),
        ih g post (fun g' h' => hpre g' (List.mem_cons_of_mem _ h')) hg]

/-- Claim C5: for every launch whose installed-path lookup succeeds, the
playtime bookkeeping runs whatever the process outcome: the saved profile
carries the library updated by the rounded elapsed seconds; a missing
record is not created; a present first-matching record with a numeric
playtime gets exactly the rounded elapsed seconds added; and the returned
result is a function of the spawned process's own error value alone. -/
theorem launch_playtime_bookkeeping (paths : PathMap) (gameId : String)
    (fs : FileState) (st en : Nat) (procError : Option String) (gd : JVal)
    (hgd : mapGet paths gameId = some gd) (htr : jsTruthy gd = true)
    (hex : jsTruthy (getField gd "execTarget") = true) :
    (∃ w, (launchGame paths gameId fs st en procError).saved = some w ∧
        libraryOf w = updateLib (roundSeconds (en - st)) gameId
          (libraryOf (loadProfile fs paths).1)) ∧
    ((∀ g ∈ libraryOf (loadProfile fs paths).1, idMatches g gameId = false) →
        updateLib (roundSeconds (en - st)) gameId
          (libraryOf (loadProfile fs paths).1) =
          libraryOf (loadProfile fs paths).1) ∧
    (∀ pre (g : JVal) post (n : Int),
        libraryOf (loadProfile fs paths).1 = pre ++ g :: post →
        (∀ g' ∈ pre, idMatches g' gameId = false) → idMatches g gameId = true →
        getField g "playtime" = .num n →
        updateLib (roundSeconds (en - st)) gameId
          (libraryOf (loadProfile fs paths).1) =
          pre ++ setJ g "playtime" (.num (n + (roundSeconds (en - st) : Int)))
            :: post) ∧
    ((launchGame paths gameId fs st en procError).result =
      match procError with
      | none => ⟨true, "Game launched successfully"⟩
      | some m => ⟨false, "Launch failed: " ++ m⟩) := by
  have heq := launchGame_eq paths gameId fs st en procError gd hgd htr hex
  refine ⟨?_, ?_, ?_, ?_⟩
  · rcases loadProfile_fst_obj fs paths with ⟨pf, hpf⟩
    refine ⟨_, by rw [heq], ?_⟩
    rw [hpf]
    exact libraryOf_save_setlib pf _ _
  · exact updateLib_no_match _ _ _
  · intro pre g post n hsplit hpre hg hn
    rw [hsplit, updateLib_first_match _ _ pre g post hpre hg, hn,
      addPlaytime_num]
  · rw [heq]

/-- A concrete installed-path table with one complete record. -/
def samplePaths : PathMap :=
  [("g1", .obj [("path", .str "dl/extracted"),
                ("execTarget", .str "dl/extracted/Terraria.exe")])]

/-- Witness for claim C5: a concrete launch that reports a process error
still persists a profile and returns the failure result derived from the
process error alone. -/
theorem launch_playtime_bookkeeping_witness :
    (launchGame samplePaths "g1" .absent 0 5000 (some "boom")).result =
      ⟨false, "Launch failed: boom"⟩ :=
  (launch_playtime_bookkeeping samplePaths "g1" .absent 0 5000 (some "boom")
    _ rfl rfl rfl).2.2.2

/-- Claim C6 counterexample: a launch whose process exits with an error
persists the updated playtime but delivers no update-playtime event, so
the observer is not notified "regardless of success or error" — the
broadcast only happens on the success path (the error branch returns
before it, source lines 425-437). -/
theorem launch_error_no_notification_counterexample :
    (launchGame samplePaths "g1" .absent 0 5000 (some "spawn failure")).events
      = [] ∧
    (launchGame samplePaths "g1" .absent 0 5000
      (some "spawn failure")).saved.isSome = true ∧
    (launchGame samplePaths "g1" .absent 0 5000 (some "spawn failure")).result
      = ⟨false, "Launch failed: spawn failure"⟩ := by
  refine ⟨rfl, rfl, rfl⟩

/-- Claim C6 (amended): after the updated profile is persisted the
observer is notified of the updated playtime only when the spawned process
exited without error; on an error exit the profile is still persisted but
no update-playtime event is delivered. -/
theorem launch_notification_on_success_only (paths : PathMap)
    (gameId : String) (fs : FileState) (st en : Nat) (gd : JVal)
    (hgd : mapGet paths gameId = some gd) (htr : jsTruthy gd = true)
    (hex : jsTruthy (getField gd "execTarget") = true) :
    ((launchGame paths gameId fs st en none).events =
        [LEvent.updatePlaytime gameId] ∧
      (launchGame paths gameId fs st en none).saved.isSome = true) ∧
    (∀ m, (launchGame paths gameId fs st en (some m)).events = [] ∧
      (launchGame paths gameId fs st en (some m)).saved.isSome = true) := by
  constructor
  · rw [launchGame_eq paths gameId fs st en none gd hgd htr hex]
    exact ⟨rfl, rfl⟩
  · intro m
    rw [launchGame_eq paths gameId fs st en (some m) gd hgd htr hex]
    exact ⟨rfl, rfl⟩

/-- Witness for the amended claim C6: a concrete error-free launch
delivers the update-playtime event. -/
theorem launch_notification_on_success_only_witness :
    (launchGame samplePaths "g1" .absent 0 5000 none).events =
      [LEvent.updatePlaytime "g1"] :=
  ((launch_notification_on_success_only samplePaths "g1" .absent 0 5000
    _ rfl rfl rfl).1).1

/-! ## Extraction supervision (`handleExtraction`, source lines 267-355)

The filesystem and the decoder subprocess are modelled as explicit inputs:
the listing of the download directory (or the error its read throws), the
subprocess outcome (a spawn `error` event, or the stdout chunks followed
by the exit code), the listing of the output directory used both for the
emptiness check and by the executable locator, and the destroyed-state of
the observer channel at the completion check.  The `mkdir` of the output
directory is idempotent and assumed to succeed (its failure would surface
through the same preparation-failure catch as a listing error). -/

inductive ExtEvent where
  | decompressionStart (gameId : String)
  | decompressionProgress (gameId : String) (p : Nat)
  | decompressionComplete (gameId : String)
deriving Repr, DecidableEq

structure ExtractInput where
  downloadListing : Except String (List String)
  spawn : Except String (List Chunk × Int)
  extractedTree : Except String (List FsEntry)
  destroyedAtEnd : Bool

/-- `file.endsWith('.rar')`, computed on the character lists. -/
def nameEndsWith (s suffix : String) : Bool := suffix.data.isSuffixOf s.data

/-- `handleExtraction(downloadPath, gameId, event)`: returns the promise
outcome, the installed-path table after the call, and the events sent to
the observer.  Path separators are rendered as "/"; the source uses
`path.join`. -/
def handleExtraction (inp : ExtractInput) (gameId target extractionDir : String)
    (paths : PathMap) : Except String Unit × PathMap × List ExtEvent :=
  match inp.downloadListing with
  | .error e => (.error ("Extraction preparation failed: " ++ e), paths, [])
  | .ok files =>
      match files.find? (fun f => nameEndsWith f ".rar") with
      | none => (.error "No .rar file found in the download directory", paths, [])
      | some _ =>
          match inp.spawn with
          | .error m =>
              (.error ("Failed to start 7-Zip process: " ++ m), paths,
                [.decompressionStart gameId])
          | .ok (chunks, code) =>
              let evs := ExtEvent.decompressionStart gameId ::
                (extractionEmitted chunks).map (ExtEvent.decompressionProgress gameId)
              if code != 0 then
                (.error ("7-Zip extraction failed with code " ++ toString code),
                  paths, evs)
              else
                match inp.extractedTree with
                | .error e => (.error e, paths, evs)
                | .ok tree =>
                    if tree.length = 0 then
                      (.error "No files found after extraction", paths, evs)
                    else
                      match findExecutable target tree with
                      | none =>
                          (.error "Target executable not found in extracted files",
                            paths, evs)
                      | some p =>
                          (.ok (),
                           mapSet paths gameId (.obj
                             [("path", .str extractionDir),
                              ("execTarget", .str (String.intercalate "/"
                                (extractionDir :: p)))]),
                           evs ++ (if inp.destroyedAtEnd then []
                             else [.decompressionComplete gameId]))

/-- Claim C8: an installed-path record is created only when extraction
exits with zero status, the output directory is non-empty and the locator
finds the target; every failure branch leaves the installed-path table
untouched. -/
theorem extraction_commit_only_on_success (inp : ExtractInput)
    (gameId target extractionDir : String) (paths : PathMap) :
    (∀ e, (handleExtraction inp gameId target extractionDir paths).1 = .error e →
        (handleExtraction inp gameId target extractionDir paths).2.1 = paths) ∧
    ((handleExtraction inp gameId target extractionDir paths).1 = .ok () →
        ∃ files rar chunks tree p,
          inp.downloadListing = .ok files ∧
          files.find? (fun f => nameEndsWith f ".rar") = some rar ∧
          inp.spawn = .ok (chunks, 0) ∧
          inp.extractedTree = .ok tree ∧ tree ≠ [] ∧
          findExecutable target tree = some p ∧
          (handleExtraction inp gameId target extractionDir paths).2.1 =
            mapSet paths gameId (.obj
              [("path", .str extractionDir),
               ("execTarget", .str (String.intercalate "/"
                 (extractionDir :: p)))])) := by
  rcases hd : inp.downloadListing with e | files
  · constructor
    · intro e' _
      simp [handleExtraction, hd]
    · intro h
      simp [handleExtraction, hd] at h
  · rcases hrar : files.find? (fun f => nameEndsWith f ".rar") with _ | rar
    · constructor
      · intro e' _
        simp [handleExtraction, hd, hrar]
      · intro h
        simp [handleExtraction, hd, hrar] at h
    · rcases hsp : inp.spawn with m | ⟨chunks, code⟩
      · constructor
        · intro e' _
          simp [handleExtraction, hd, hrar, hsp]
        · intro h
          simp [handleExtraction, hd, hrar, hsp] at h
      · by_cases hcode : code = 0
        · subst hcode
          rcases htree : inp.extractedTree with e | tree
          · constructor
            · intro e' _
              simp [handleExtraction, hd, hrar, hsp, htree]
            · intro h
              simp [handleExtraction, hd, hrar, hsp, htree] at h
          · by_cases hlen : tree.length = 0
            · constructor
              · intro e' _
                simp [handleExtraction, hd, hrar, hsp, htree, hlen]
              · intro h
                simp [handleExtraction, hd, hrar, hsp, htree, hlen] at h
            · rcases hfind : findExecutable target tree with _ | p
              · constructor
                · intro e' _
                  simp [handleExtraction, hd, hrar, hsp, htree, hlen, hfind]
                · intro h
                  simp [handleExtraction, hd, hrar, hsp, htree, hlen, hfind] at h
              · constructor
                · intro e' habs
                  simp [handleExtraction, hd, hrar, hsp, htree, hlen, hfind] at habs
                · intro _
                  refine ⟨files, rar, chunks, tree, p, rfl, hrar, rfl, rfl,
                    ?_, hfind, ?_⟩
                  · intro hnil
                    exact hlen (by simp [hnil])
                  · simp [handleExtraction, hd, hrar, hsp, htree, hlen, hfind]
        · constructor
          · intro e' _
            simp [handleExtraction, hd, hrar, hsp, hcode]
          · intro h
            simp [handleExtraction, hd, hrar, hsp, hcode] at h

/-- Witness for claim C8: a download directory without any .rar archive
leaves the installed-path table untouched. -/
theorem extraction_commit_only_on_success_witness :
    (handleExtraction ⟨.ok ["readme.txt"], .ok ([], 0), .ok [], false⟩ "g1"
      "Terraria.exe" "dl/extracted" samplePaths).2.1 = samplePaths :=
  (extraction_commit_only_on_success ⟨.ok ["readme.txt"], .ok ([], 0), .ok [],
    false⟩ "g1" "Terraria.exe" "dl/extracted" samplePaths).1
    "No .rar file found in the download directory" rfl

/-! ## The start-torrent-download handler (source lines 203-265)

The handler returns `new Promise((resolve) => ...)`: the executor binds
only `resolve`, and no `reject` is in scope anywhere in the module.  Each
of the three failure paths (engine `error` event at line 262, failed
deregistration at line 241, extraction failure at line 255) calls
`reject(...)`, which throws a `ReferenceError` inside the respective
callback; the process-level `uncaughtException` handler (line 487) logs it
and the promise is never settled, so the caller never receives a result.
The settlement of the call is therefore `none` on every failure path and
`some` only for the invalid-identifier early return and the full success
path.  The identifier is modelled as a string; the `typeof` half of the
guard is outside the model. -/

inductive TransferTerminal where
  | engineError (msg : String)
  | doneRemoveFailed (msg : String)
  | doneExtracted (res : Except String Unit)

/-- The value the start-torrent-download call settles with for a given
terminal transfer outcome, or `none` when the promise never settles. -/
def startTorrentSettle (gameId : String) (term : TransferTerminal) :
    Option JsResult :=
  if gameId = "" then some ⟨false, "Invalid gameId"⟩
  else
    match term with
    | .engineError _ => none
    | .doneRemoveFailed _ => none
    | .doneExtracted (.ok _) => some ⟨true, "Download and extraction completed"⟩
    | .doneExtracted (.error _) => none

/-- Claim C2 (code bug): an engine-reported transfer error, a failed
deregistration, and a failed extraction all leave the call unsettled —
the caller never receives the `Failed` result the claim promises — while
the success path settles normally. -/
theorem startTorrent_failures_never_settle :
    startTorrentSettle "g1" (.engineError "connection reset") = none ∧
    startTorrentSettle "g1" (.doneRemoveFailed "Failed to stop torrent") = none ∧
    startTorrentSettle "g1" (.doneExtracted (.error "Extraction failed")) = none ∧
    startTorrentSettle "g1" (.doneExtracted (.ok ())) =
      some ⟨true, "Download and extraction completed"⟩ :=
  ⟨rfl, rfl, rfl, rfl⟩

/-! ## Claim C9: the load → save round trip

A well-formed persisted profile, per the data model of the specification:
the three top-level fields in their documented order, a user object with
the four subfields in the normalizer's order, records that are objects
with unique keys carrying a string `id` and a non-negative integer
`playtime`, a picture that is null or a string, and an installed-path
object with unique keys whose entries are `{path, execTarget}` string
pairs. -/

structure WFProfile where
  gs : List JVal
  nm : String
  lv : Int
  pic : JVal
  es : List JVal
  eps : List (String × JVal)

/-- The JSON value of a well-formed profile. -/
def WFProfile.toJVal (w : WFProfile) : JVal :=
  .obj [("library", .arr w.gs),
        ("user", .obj [("name", .str w.nm), ("level", .num w.lv),
                       ("picture", w.pic), ("expositors", .arr w.es)]),
        ("extractionPaths", .obj w.eps)]

/-- Unique keys of a field list. -/
def nodupB : List String → Bool
  | [] => true
  | k :: ks => !(ks.any (fun k' => k' == k)) && nodupB ks

/-- A well-formed library record. -/
def wfRecord : JVal → Bool
  | .obj gfs =>
      nodupB (gfs.map (fun p => p.1)) &&
      (match gfs.find? (fun p => p.1 == "id") with
       | some (_, .str _) => true
       | _ => false) &&
      (match gfs.find? (fun p => p.1 == "playtime") with
       | some (_, .num n) => decide (0 ≤ n)
       | _ => false)
  | _ => false

/-- A well-formed picture value. -/
def picOk : JVal → Bool
  | .null => true
  | .str _ => true
  | _ => false

/-- A well-formed installed-path record. -/
def wfPathRec : JVal → Bool
  | .obj [("path", .str _), ("execTarget", .str _)] => true
  | _ => false

/-- Well-formedness of the components of a profile. -/
def WFProfile.ok (w : WFProfile) : Bool :=
  w.gs.all wfRecord && picOk w.pic && nodupB (w.eps.map (fun p => p.1)) &&
    w.eps.all (fun kv => wfPathRec kv.2)

/-- The written content of `saveProfile` after `loadProfile` of a parsed
file, starting from an empty installed-path table. -/
def roundTrip (v : JVal) : JVal :=
  saveProfile (loadProfile (.parsed v) []).1 (loadProfile (.parsed v) []).2

theorem jsOr_num_zero (n : Int) : jsOr (.num n) (.num 0) = .num n := by
  by_cases h : n = 0
  · subst h
    simp [jsOr, jsTruthy]
  · simp [jsOr, jsTruthy, h]

theorem map_set_id_of_not_any (fs : List (String × JVal)) (k : String) (x : JVal)
    (h : fs.any (fun p => p.1 == k) = false) :
    fs.map (fun p => if p.1 == k then (k, x) else p) = fs := by
  induction fs with
  | nil => rfl
  | cons p rest ih =>
      rw [List.any_cons, Bool.or_eq_false_iff] at h
      rw [List.map_cons, if_neg (by simp [h.1]), ih h.2]

theorem map_set_eq_self : ∀ (fs : List (String × JVal)) (k : String) (x : JVal),
    nodupB (fs.map (fun p => p.1)) = true →
    fs.find? (fun p => p.1 == k) = some (k, x) →
    fs.map (fun p => if p.1 == k then (k, x) else p) = fs := by
  intro fs k x
  induction fs with
  | nil => intro _ hf; cases hf
  | cons p rest ih =>
      intro hnd hf
      rw [List.map_cons, nodupB, Bool.and_eq_true] at hnd
      cases hpk : (p.1 == k) with
      | true =>
          have hp : p = (k, x) := by
            have hcons : List.find? (fun q => q.1 == k) (p :: rest) = some p :=
              List.find?_cons_of_pos _ hpk
            rw [hcons] at hf
            exact Option.some.inj hf
          have hkp : p.1 = k := by simpa using hpk
          have hrest : rest.any (fun q => q.1 == k) = false := by
            cases hra : rest.any (fun q => q.1 == k) with
            | false => rfl
            | true =>
                rcases List.any_eq_true.mp hra with ⟨q, hq, hqk⟩
                have hmem : (rest.map (fun p => p.1)).any
                    (fun k' => k' == p.1) = true := by
                  refine List.any_eq_true.mpr
                    ⟨q.1, List.mem_map.mpr ⟨q, hq, rfl⟩, ?_⟩
                  rw [hkp]
                  exact hqk
                rw [hmem] at hnd
                simp at hnd
          rw [List.map_cons, if_pos hpk, map_set_id_of_not_any rest k x hrest, hp]
      | false =>
          rw [List.find?_cons_of_neg _ (by simp [hpk])] at hf
          rw [List.map_cons, if_neg (by simp [hpk]), ih hnd.2 hf]

theorem setF_eq_self (fs : List (String × JVal)) (k : String) (x : JVal)
    (hnd : nodupB (fs.map (fun p => p.1)) = true)
    (hf : fs.find? (fun p => p.1 == k) = some (k, x)) :
    setF fs k x = fs := by
  rw [setF, if_pos (any_key_of_find?_some hf)]
  exact map_set_eq_self fs k x hnd hf

theorem foldl_mapSet_append : ∀ (eps : List (String × JVal)) (acc : PathMap),
    (∀ kv ∈ eps, acc.any (fun p => p.1 == kv.1) = false) →
    nodupB (eps.map (fun p => p.1)) = true →
    eps.foldl (fun m kv => mapSet m kv.1 kv.2) acc = acc ++ eps := by
  intro eps
  induction eps with
  | nil =>
      intro acc _ _
      simp
  | cons e rest ih =>
      intro acc hdisj hnd
      rw [List.map_cons, nodupB, Bool.and_eq_true] at hnd
      rw [List.foldl_cons]
      have hset : mapSet acc e.1 e.2 = acc ++ [e] := by
        rw [mapSet, setF, if_neg (by simp [hdisj e (List.mem_cons_self _ _)])]
      rw [hset]
      have hdisj2 : ∀ kv ∈ rest, (acc ++ [e]).any (fun p => p.1 == kv.1) = false := by
        intro kv hkv
        have h1 := hdisj kv (List.mem_cons_of_mem _ hkv)
        have h2 : (e.1 == kv.1) = false := by
          cases hb : (e.1 == kv.1) with
          | false => rfl
          | true =>
              have hbe : kv.1 = e.1 := by
                have : e.1 = kv.1 := by simpa using hb
                exact this.symm
              have hmem : (rest.map (fun p => p.1)).any
                  (fun k' => k' == e.1) = true :=
                List.any_eq_true.mpr
                  ⟨kv.1, List.mem_map.mpr ⟨kv, hkv, rfl⟩, by simp [hbe]⟩
              rw [hmem] at hnd
              simpa using hnd.1
        rw [List.any_append]
        simp [h1, h2]
      rw [ih (acc ++ [e]) hdisj2 hnd.2]
      simp

theorem backfillRecord_id (g : JVal) (hg : wfRecord g = true) :
    backfillRecord g = .ok g := by
  cases g with
  | obj gfs =>
      rw [wfRecord, Bool.and_eq_true, Bool.and_eq_true] at hg
      obtain ⟨⟨hnd, _⟩, hpt⟩ := hg
      rcases hfind : gfs.find? (fun p => p.1 == "playtime") with _ | q
      · rw [hfind] at hpt
        simp at hpt
      · rcases q with ⟨qk, qv⟩
        have hqk : qk = "playtime" := by
          have := List.find?_some hfind
          simpa using this
        subst hqk
        cases qv with
        | num n =>
            have hget : getF gfs "playtime" = .num n := by
              rw [getF, hfind]
            rw [backfillRecord, hget, jsOr_num_zero,
              setF_eq_self gfs "playtime" (.num n) hnd hfind]
        | null => rw [hfind] at hpt; simp at hpt
        | undefined => rw [hfind] at hpt; simp at hpt
        | bool b => rw [hfind] at hpt; simp at hpt
        | str s => rw [hfind] at hpt; simp at hpt
        | arr xs => rw [hfind] at hpt; simp at hpt
        | obj o => rw [hfind] at hpt; simp at hpt
  | null => simp [wfRecord] at hg
  | undefined => simp [wfRecord] at hg
  | bool b => simp [wfRecord] at hg
  | num n => simp [wfRecord] at hg
  | str s => simp [wfRecord] at hg
  | arr xs => simp [wfRecord] at hg

theorem backfillLib_id (gs : List JVal) (h : gs.all wfRecord = true) :
    backfillLib gs = .ok gs := by
  induction gs with
  | nil => rfl
  | cons g rest ih =>
      rw [List.all_cons, Bool.and_eq_true] at h
      rw [backfillLib, backfillRecord_id g h.1, ih h.2]

theorem normalizeUser_id (nm : String) (lv : Int) (pic : JVal) (es : List JVal)
    (hnm : nm ≠ "") (hpic : pic = .null ∨ ∃ s, pic = .str s ∧ s ≠ "") :
    normalizeUser (.obj [("name", .str nm), ("level", .num lv),
        ("picture", pic), ("expositors", .arr es)]) =
      .ok (.obj [("name", .str nm), ("level", .num lv),
        ("picture", pic), ("expositors", .arr es)]) := by
  have hstep : normalizeUser (.obj [("name", .str nm), ("level", .num lv),
      ("picture", pic), ("expositors", .arr es)]) =
    .ok (.obj
      [("name", jsOr (.str nm) (.str "User")),
       ("level", jsOr (.num lv) (.num 0)),
       ("picture", jsOr pic .null),
       ("expositors", .arr es)]) := rfl
  rw [hstep]
  have h1 : jsOr (.str nm) (.str "User") = .str nm := by
    simp [jsOr, jsTruthy, hnm]
  have h3 : jsOr pic .null = pic := by
    rcases hpic with rfl | ⟨s, rfl, hs⟩
    · rfl
    · simp [jsOr, jsTruthy, hs]
  rw [h1, jsOr_num_zero, h3]

/-- Claim C9 (amended): a well-formed persisted profile whose present user
subfields are not falsy (nonempty name, null-or-nonempty picture string)
round-trips: `save(load())` rewrites exactly the original content, the only
rewriting performed on any well-formed profile being the normalization
itself (which also replaces a present-but-falsy name or picture by its
default, as the counterexample shows). -/
theorem roundtrip_wellformed_truthy (w : WFProfile) (hok : w.ok = true)
    (hnm : w.nm ≠ "")
    (hpic : w.pic = .null ∨ ∃ s, w.pic = .str s ∧ s ≠ "") :
    roundTrip w.toJVal = w.toJVal := by
  obtain ⟨gs, nm, lv, pic, es, eps⟩ := w
  simp only [WFProfile.ok] at hok
  rw [Bool.and_eq_true, Bool.and_eq_true, Bool.and_eq_true] at hok
  obtain ⟨⟨⟨hgs, hpicok⟩, hnd⟩, heps⟩ := hok
  have hval : validStructure
      (WFProfile.toJVal ⟨gs, nm, lv, pic, es, eps⟩) = true := rfl
  have hlib : libraryOf (WFProfile.toJVal ⟨gs, nm, lv, pic, es, eps⟩) = gs := rfl
  have hbl := backfillLib_id gs hgs
  have hu : getField (WFProfile.toJVal ⟨gs, nm, lv, pic, es, eps⟩) "user" =
      .obj [("name", .str nm), ("level", .num lv), ("picture", pic),
            ("expositors", .arr es)] := rfl
  have hnu := normalizeUser_id nm lv pic es hnm hpic
  have hep : getField (WFProfile.toJVal ⟨gs, nm, lv, pic, es, eps⟩)
      "extractionPaths" = .obj eps := rfl
  have hfold : eps.foldl (fun m kv => mapSet m kv.1 kv.2) [] = eps := by
    have h := foldl_mapSet_append eps [] (fun kv _ => rfl) hnd
    simpa using h
  have hsetJ : setJ (setJ (WFProfile.toJVal ⟨gs, nm, lv, pic, es, eps⟩)
      "library" (.arr gs)) "user"
      (.obj [("name", .str nm), ("level", .num lv), ("picture", pic),
             ("expositors", .arr es)]) =
      WFProfile.toJVal ⟨gs, nm, lv, pic, es, eps⟩ := rfl
  have hbody : loadProfileBody
      (.parsed (WFProfile.toJVal ⟨gs, nm, lv, pic, es, eps⟩)) [] =
      .ok (WFProfile.toJVal ⟨gs, nm, lv, pic, es, eps⟩, eps) := by
    simp only [loadProfileBody, hval, hlib, hbl, hu, hnu, hep, hsetJ, hfold,
      jsTruthy, jsTypeof, ownEntries, beq_self_eq_true, Bool.and_self,
      if_true, ite_true]
  have hload : loadProfile
      (.parsed (WFProfile.toJVal ⟨gs, nm, lv, pic, es, eps⟩)) [] =
      (WFProfile.toJVal ⟨gs, nm, lv, pic, es, eps⟩, eps) := by
    simp only [loadProfile, hbody]
  rw [roundTrip, hload]
  rfl

/-- Claim C9 counterexample: a well-formed profile whose user name is the
empty string (a legal string value of the data model) does not round-trip:
`name || 'User'` replaces it by "User", information loss beyond filling
missing fields with defaults. -/
theorem roundtrip_falsy_name_counterexample :
    WFProfile.ok ⟨[], "", 0, .null, [], []⟩ = true ∧
    roundTrip (WFProfile.toJVal ⟨[], "", 0, .null, [], []⟩) ≠
      WFProfile.toJVal ⟨[], "", 0, .null, [], []⟩ := by
  refine ⟨rfl, ?_⟩
  intro h
  have h1 : getField (getField (roundTrip (WFProfile.toJVal
      ⟨[], "", 0, .null, [], []⟩)) "user") "name" = .str "User" := rfl
  rw [h] at h1
  have h2 : getField (getField (WFProfile.toJVal ⟨[], "", 0, .null, [], []⟩)
      "user") "name" = .str "" := rfl
  rw [h2] at h1
  injection h1 with h3
  exact absurd h3 (by decide)

/-- Witness for the amended claim C9 at a concrete well-formed profile
with truthy user subfields. -/
theorem roundtrip_wellformed_truthy_witness :
    roundTrip (WFProfile.toJVal ⟨[.obj [("id", .str "g1"),
        ("playtime", .num 7)]], "Player", 3, .null, [],
        [("g1", .obj [("path", .str "d"),
          ("execTarget", .str "d/Terraria.exe")])]⟩) =
      WFProfile.toJVal ⟨[.obj [("id", .str "g1"), ("playtime", .num 7)]],
        "Player", 3, .null, [],
        [("g1", .obj [("path", .str "d"),
          ("execTarget", .str "d/Terraria.exe")])]⟩ :=
  roundtrip_wellformed_truthy ⟨[.obj [("id", .str "g1"),
      ("playtime", .num 7)]], "Player", 3, .null, [],
      [("g1", .obj [("path", .str "d"),
        ("execTarget", .str "d/Terraria.exe")])]⟩
    rfl (by decide) (Or.inl rfl)
